import Mathlib

/-!
Shallow embedding of the voice-agent orchestrator (`app.py`,
`services/llm.py`, `services/murf_ws.py`).

Modelling conventions:
* Text is a list of Unicode codepoints (`List Nat`); `str` converts a
  Lean string literal.  The character classes used by `normalize_text`
  (`re.sub(r'[^\w\s]', ...)`, `str.strip`, `str.lower`) are modelled on
  the ASCII fragment.
* Wall-clock instants are integers (seconds).  The code uses
  real-valued seconds; no claim depends on sub-second fractions and no
  proof below uses integrality, only ordered-field-free comparisons.
* Raw audio payloads are byte lists (`List Nat`); base64 decode/encode
  round-trips byte-for-byte, so the model works directly on the bytes.
* Each event sent to the client over the session WebSocket is an
  `Event` value.
-/

namespace VoiceAgent

/-- Convert a Lean string literal to its codepoint list. -/
def str (s : String) : List Nat := s.data.map Char.toNat

/-- Python default whitespace for `str.strip` (ASCII fragment):
space, tab, LF, VT, FF, CR. -/
def isPySpace (c : Nat) : Bool :=
  decide (c = 32 ∨ c = 9 ∨ c = 10 ∨ c = 11 ∨ c = 12 ∨ c = 13)

/-- `str.lower` on the ASCII fragment. -/
def asciiLower (c : Nat) : Nat := if 65 ≤ c ∧ c ≤ 90 then c + 32 else c

/-- Python `\w` (ASCII fragment): letters, digits, underscore. -/
def isWordChar (c : Nat) : Bool :=
  decide ((48 ≤ c ∧ c ≤ 57) ∨ (65 ≤ c ∧ c ≤ 90) ∨ (97 ≤ c ∧ c ≤ 122) ∨ c = 95)

/-- Left part of `str.strip`. -/
def stripLeft (l : List Nat) : List Nat := l.dropWhile isPySpace

/-- Python `str.strip()`: drop leading and trailing whitespace. -/
def pyStrip (l : List Nat) : List Nat :=
  ((stripLeft l).reverse.dropWhile isPySpace).reverse

/-- `str.lower()` applied characterwise. -/
def toLowerStr (l : List Nat) : List Nat := l.map asciiLower

/-- `re.sub(r'[^\w\s]', '', ·)`: keep word characters and whitespace. -/
def removePunct (l : List Nat) : List Nat :=
  l.filter (fun c => isWordChar c || isPySpace c)

/-- `app.py` `normalize_text`:
`re.sub(r'[^\w\s]', '', text.strip().lower())`. -/
def normalize_text (t : List Nat) : List Nat :=
  removePunct (toLowerStr (pyStrip t))

/-! ### Rate limiter (`app.py`, class `RateLimiter`) -/

/-- `app.py` `RateLimiter`: bounded rolling-window request log. -/
structure RateLimiter where
  maxRequests : Nat
  timeWindow : ℤ
  requests : List ℤ
deriving DecidableEq, Repr

/-- The process-wide limiter `RateLimiter()` with the constructor
defaults `max_requests=40`, `time_window=86400`. -/
def RateLimiter.init : RateLimiter := ⟨40, 86400, []⟩

/-- `RateLimiter.can_make_request`: prune entries whose age has reached
the window, then compare the count against `max_requests`.  Returns the
mutated limiter together with the boolean verdict. -/
def can_make_request (rl : RateLimiter) (now : ℤ) : RateLimiter × Bool :=
  let kept := rl.requests.filter (fun t => decide (now - t < rl.timeWindow))
  (⟨rl.maxRequests, rl.timeWindow, kept⟩, decide (kept.length < rl.maxRequests))

/-- `RateLimiter.add_request`: append the current timestamp. -/
def add_request (rl : RateLimiter) (now : ℤ) : RateLimiter :=
  { rl with requests := rl.requests ++ [now] }

/-- One round of the allow-then-record calling protocol used by
`stream_llm_response`. -/
def protocolStep (rl : RateLimiter) (now : ℤ) : RateLimiter :=
  let p := can_make_request rl now
  if p.2 then add_request p.1 now else p.1

/-- Iterated allow-then-record protocol. -/
def protocolRun (rl : RateLimiter) (times : List ℤ) : RateLimiter :=
  times.foldl protocolStep rl

lemma protocolStep_maxRequests (rl : RateLimiter) (now : ℤ) :
    (protocolStep rl now).maxRequests = rl.maxRequests := by
  simp only [protocolStep, can_make_request, add_request]
  split <;> rfl

lemma protocolStep_length (rl : RateLimiter) (now : ℤ)
    (h : rl.requests.length ≤ rl.maxRequests) :
    (protocolStep rl now).requests.length ≤ rl.maxRequests := by
  simp only [protocolStep, can_make_request, add_request]
  split
  · next hok =>
    simp only [List.length_append, List.length_singleton]
    have := of_decide_eq_true hok
    omega
  · next hok =>
    dsimp only
    have := List.length_filter_le
      (fun t => decide (now - t < rl.timeWindow)) rl.requests
    omega

lemma protocolRun_length (times : List ℤ) :
    ∀ rl : RateLimiter, rl.requests.length ≤ rl.maxRequests →
      (protocolRun rl times).requests.length ≤ (protocolRun rl times).maxRequests := by
  induction times with
  | nil => intro rl h; simpa [protocolRun] using h
  | cons t ts ih =>
    intro rl h
    have h1 := protocolStep_length rl t h
    have h2 := protocolStep_maxRequests rl t
    have := ih (protocolStep rl t) (by rw [h2]; exact h1)
    simpa [protocolRun] using this

/-- C5: `allow()` prunes every entry at least `window_seconds` old (in
particular every entry strictly older), keeps exactly the fresh ones,
and permits iff the pruned count is below `max_requests`; `record()`
appends the current timestamp; the defaults are `(40, 86 400)`; and
under the allow-then-record protocol the record list never exceeds
`max_requests` entries. -/
theorem c5_rate_limiter_semantics :
    (RateLimiter.init.maxRequests = 40 ∧ RateLimiter.init.timeWindow = 86400) ∧
    (∀ (rl : RateLimiter) (now : ℤ),
      (can_make_request rl now).1.requests
        = rl.requests.filter (fun t => decide (now - t < rl.timeWindow))) ∧
    (∀ (rl : RateLimiter) (now t : ℤ), t ∈ rl.requests →
      rl.timeWindow ≤ now - t → t ∉ (can_make_request rl now).1.requests) ∧
    (∀ (rl : RateLimiter) (now : ℤ),
      (can_make_request rl now).2 = true
        ↔ (can_make_request rl now).1.requests.length < rl.maxRequests) ∧
    (∀ (rl : RateLimiter) (now : ℤ),
      (add_request rl now).requests = rl.requests ++ [now]) ∧
    (∀ (rl : RateLimiter) (times : List ℤ),
      rl.requests.length ≤ rl.maxRequests →
      (protocolRun rl times).requests.length ≤ (protocolRun rl times).maxRequests) := by
  refine ⟨⟨rfl, rfl⟩, fun rl now => rfl, ?_, ?_, fun rl now => rfl, ?_⟩
  · intro rl now t hmem hold hkept
    simp only [can_make_request, List.mem_filter, decide_eq_true_eq] at hkept
    exact absurd hkept.2 (not_lt.mpr hold)
  · intro rl now
    simp [can_make_request]
  · intro rl times h
    exact protocolRun_length times rl h

/-- Witness for C5 at concrete inputs: pruning, verdict, append and the
protocol bound evaluated on a limiter holding one stale entry. -/
theorem c5_witness :
    ((⟨2, 10, [0]⟩ : RateLimiter).timeWindow ≤ (20 : ℤ) - 0 ∧
      (0 : ℤ) ∈ (⟨2, 10, [0]⟩ : RateLimiter).requests ∧
      (0 : ℤ) ∉ (can_make_request ⟨2, 10, [0]⟩ 20).1.requests) ∧
    (RateLimiter.init.requests.length ≤ RateLimiter.init.maxRequests ∧
      (protocolRun RateLimiter.init [0, 1, 2]).requests.length
        ≤ (protocolRun RateLimiter.init [0, 1, 2]).maxRequests) := by
  constructor
  · exact ⟨by decide, by decide,
      c5_rate_limiter_semantics.2.2.1 ⟨2, 10, [0]⟩ 20 0 (by decide) (by decide)⟩
  · exact ⟨by decide,
      c5_rate_limiter_semantics.2.2.2.2.2 RateLimiter.init [0, 1, 2] (by decide)⟩

/-! ### Normalization (`app.py`, `normalize_text`) — claim C9 -/

/-- The normalization in the order the spec sentence lists the
operations: lowercase, then remove punctuation, then trim.  Used only
to compare the spec's wording against `normalize_text`. -/
def specNormalizeC9 (t : List Nat) : List Nat :=
  pyStrip (removePunct (toLowerStr t))

/-- Claim C9 as stated: the implemented normalization agrees with the
spec's operation order, and strings differing only by punctuation
characters normalize equally. -/
def SpecClaimC9 : Prop :=
  (∀ t : List Nat, normalize_text t = specNormalizeC9 t) ∧
  (∀ x y : List Nat, removePunct x = removePunct y →
    normalize_text x = normalize_text y)

lemma asciiLower_isPySpace {a b : Nat} (h : asciiLower a = asciiLower b) :
    isPySpace a = isPySpace b := by
  unfold asciiLower at h
  unfold isPySpace
  rw [decide_eq_decide]
  split_ifs at h <;> omega

lemma forall2_dropWhile {R : Nat → Nat → Prop} {p : Nat → Bool}
    (hp : ∀ a b, R a b → p a = p b) :
    ∀ {x y : List Nat}, List.Forall₂ R x y →
      List.Forall₂ R (x.dropWhile p) (y.dropWhile p) := by
  intro x y h
  induction h with
  | nil => exact List.Forall₂.nil
  | @cons a b l₁ l₂ hab htail ih =>
    rw [List.dropWhile_cons, List.dropWhile_cons, hp a b hab]
    by_cases hb : p b = true
    · simp only [hb, if_true]; exact ih
    · simp only [hb, if_false, Bool.false_eq_true]
      exact List.Forall₂.cons hab htail

lemma forall2_toLowerStr :
    ∀ {x y : List Nat},
      List.Forall₂ (fun a b => asciiLower a = asciiLower b) x y →
      toLowerStr x = toLowerStr y := by
  intro x y h
  induction h with
  | nil => rfl
  | @cons a b l₁ l₂ hab _ ih =>
    simp only [toLowerStr, List.map_cons] at *
    rw [hab, ih]

lemma forall2_pyStrip {x y : List Nat}
    (h : List.Forall₂ (fun a b => asciiLower a = asciiLower b) x y) :
    List.Forall₂ (fun a b => asciiLower a = asciiLower b)
      (pyStrip x) (pyStrip y) := by
  have hp : ∀ a b : Nat, asciiLower a = asciiLower b →
      isPySpace a = isPySpace b := fun a b => asciiLower_isPySpace
  unfold pyStrip stripLeft
  exact List.forall₂_reverse_iff.mpr
    (forall2_dropWhile hp (List.forall₂_reverse_iff.mpr (forall2_dropWhile hp h)))

lemma dropWhile_append_all {w l : List Nat}
    (hw : ∀ c ∈ w, isPySpace c = true) :
    (w ++ l).dropWhile isPySpace = l.dropWhile isPySpace := by
  induction w with
  | nil => rfl
  | cons a t ih =>
    rw [List.cons_append, List.dropWhile_cons, hw a (by simp)]
    simp only [if_true]
    exact ih fun c hc => hw c (by simp [hc])

lemma dropWhile_all_space {w : List Nat}
    (hw : ∀ c ∈ w, isPySpace c = true) :
    w.dropWhile isPySpace = [] := by
  have := dropWhile_append_all (l := []) hw
  simpa using this

lemma dropWhile_append_of_ne_nil {x : List Nat} (r : List Nat)
    (hx : x.dropWhile isPySpace ≠ []) :
    (x ++ r).dropWhile isPySpace = x.dropWhile isPySpace ++ r := by
  induction x with
  | nil => simp [List.dropWhile] at hx
  | cons a t ih =>
    rw [List.cons_append, List.dropWhile_cons, List.dropWhile_cons] at *
    by_cases ha : isPySpace a = true
    · simp only [ha, if_true] at hx ⊢
      exact ih hx
    · simp only [ha, if_false, Bool.false_eq_true] at hx ⊢
      simp

lemma dropWhile_append_of_nil {x : List Nat} (r : List Nat)
    (hx : x.dropWhile isPySpace = []) :
    (x ++ r).dropWhile isPySpace = r.dropWhile isPySpace := by
  induction x with
  | nil => rfl
  | cons a t ih =>
    rw [List.cons_append, List.dropWhile_cons] at *
    by_cases ha : isPySpace a = true
    · simp only [ha, if_true] at hx ⊢
      exact ih hx
    · simp only [ha, if_false, Bool.false_eq_true] at hx
      exact absurd hx (by simp)

lemma pyStrip_pad {x w1 w2 : List Nat}
    (h1 : ∀ c ∈ w1, isPySpace c = true) (h2 : ∀ c ∈ w2, isPySpace c = true) :
    pyStrip (w1 ++ x ++ w2) = pyStrip x := by
  unfold pyStrip stripLeft
  rw [List.append_assoc, dropWhile_append_all h1]
  by_cases hx : x.dropWhile isPySpace = []
  · rw [dropWhile_append_of_nil w2 hx, dropWhile_all_space h2, hx]
  · rw [dropWhile_append_of_ne_nil w2 hx, List.reverse_append,
      dropWhile_append_all (w := w2.reverse)
        (fun c hc => h2 c (List.mem_reverse.mp hc))]

/-- C9 counterexample: `normalize_text` trims *before* removing
punctuation, so `"a !"` normalizes to `"a "` (trailing space kept)
while `"a "` — the same string with the punctuation deleted —
normalizes to `"a"`; the claimed operation order and the claimed
punctuation-insensitivity both fail. -/
theorem c9_counterexample : ¬ SpecClaimC9 := by
  intro h
  exact absurd (h.2 (str "a !") (str "a ") (by decide)) (by decide)

/-- C9 amended: `normalize_text x` is `x` trimmed first, then
lowercased, then with punctuation removed; consequently normalization
is invariant under character-case changes and under surrounding
whitespace (but not, in general, under punctuation deletion). -/
theorem c9_amended_normalization :
    (∀ t : List Nat, normalize_text t = removePunct (toLowerStr (pyStrip t))) ∧
    (∀ x y : List Nat,
      List.Forall₂ (fun a b => asciiLower a = asciiLower b) x y →
      normalize_text x = normalize_text y) ∧
    (∀ (x w1 w2 : List Nat),
      (∀ c ∈ w1, isPySpace c = true) → (∀ c ∈ w2, isPySpace c = true) →
      normalize_text (w1 ++ x ++ w2) = normalize_text x) := by
  refine ⟨fun t => rfl, ?_, ?_⟩
  · intro x y h
    unfold normalize_text
    rw [forall2_toLowerStr (forall2_pyStrip h)]
  · intro x w1 w2 h1 h2
    unfold normalize_text
    rw [pyStrip_pad h1 h2]

/-- Witness for C9 amended at concrete strings: `"Ab"` vs `"aB"`
normalize equally, and `" a "` normalizes like `"a"`. -/
theorem c9_witness :
    normalize_text (str "Ab") = normalize_text (str "aB") ∧
    normalize_text (str " " ++ str "a" ++ str " ") = normalize_text (str "a") := by
  constructor
  · exact c9_amended_normalization.2.1 (str "Ab") (str "aB")
      (List.Forall₂.cons (by decide) (List.Forall₂.cons (by decide) List.Forall₂.nil))
  · exact c9_amended_normalization.2.2 (str "a") (str " ") (str " ")
      (by decide) (by decide)

/-! ### Client events and the turn handler (`app.py`) -/

/-- Events emitted to the client over the session WebSocket
(the `type` field of the JSON message, with its turn-scoped payload). -/
inductive Event
| turnUpdated (turn : Nat) (finalTranscript : List Nat)
| turnCompleted (turn : Nat) (finalTranscript : List Nat)
| finalTranscript (turn : Nat) (text : List Nat)
| partialTranscript (text : List Nat)
| llmStreamingStart (turn : Nat)
| llmChunk (turn : Nat) (chunk : List Nat) (accumulated : List Nat)
| llmStreamingComplete (turn : Nat) (fullResponse : List Nat)
| llmError (turn : Nat) (error : List Nat)
| audioChunk (turn : Nat) (audioData : List Nat) (final : Bool)
| audioStreamingComplete (turn : Nat)
| errorEvent (message : List Nat)
deriving DecidableEq, Repr

/-- The per-session turn-tracking state of `websocket_endpoint`:
`turn_counter['count']`, `last_turn['raw']`, `last_turn['timestamp']`. -/
structure SessionState where
  turnCount : Nat
  lastRaw : List Nat
  lastTs : ℤ
deriving DecidableEq, Repr

/-- Initial turn-tracking state (`count 0`, empty raw, timestamp 0.0). -/
def initSession : SessionState := ⟨0, [], 0⟩

/-- `handle_turn_with_llm_streaming`: classify an STT turn event.
Returns the events emitted, the updated state, and `some (n, t)` when a
reply pipeline is scheduled for new turn `n` with user text `t`. -/
def handle_turn (st : SessionState) (transcript : List Nat) (endOfTurn : Bool)
    (now : ℤ) : List Event × SessionState × Option (Nat × List Nat) :=
  if transcript = [] then ([], st, none)
  else if endOfTurn then
    if normalize_text transcript = normalize_text st.lastRaw ∧
        st.lastRaw ≠ [] ∧ now - st.lastTs < 2 then
      if transcript ≠ st.lastRaw then
        ([Event.turnUpdated st.turnCount transcript],
         { st with lastRaw := transcript, lastTs := now }, none)
      else ([], st, none)
    else
      let n := st.turnCount + 1
      let st' : SessionState := ⟨n, transcript, now⟩
      let evs := [Event.turnCompleted n transcript, Event.finalTranscript n transcript]
      if pyStrip transcript ≠ [] then (evs, st', some (n, transcript))
      else (evs, st', none)
  else ([Event.partialTranscript transcript], st, none)

/-- Claim C1 as stated: whenever the normalized transcript matches the
stored one, the stored raw is non-empty and the event is within 2 s,
the end-of-turn is a punctuation update — `turn_updated` (with the
current turn number) exactly when the text changed, silence otherwise,
never a counter increment or a pipeline start. -/
def SpecClaimC1 : Prop :=
  ∀ (st : SessionState) (t : List Nat) (now : ℤ),
    normalize_text t = normalize_text st.lastRaw →
    st.lastRaw ≠ [] →
    now - st.lastTs < 2 →
    ((t ≠ st.lastRaw →
        (handle_turn st t true now).1 = [Event.turnUpdated st.turnCount t] ∧
        (handle_turn st t true now).2.1
          = { st with lastRaw := t, lastTs := now }) ∧
     (t = st.lastRaw → (handle_turn st t true now).1 = []) ∧
     (handle_turn st t true now).2.1.turnCount = st.turnCount ∧
     (handle_turn st t true now).2.2 = none)

/-- C1 counterexample: with stored raw `"!"` (which normalizes to the
empty string) an empty end-of-turn transcript satisfies every premise
of the claim, yet the handler's outer `if event.transcript:` guard
drops it — no `turn_updated` is emitted and the state is untouched. -/
theorem c1_counterexample : ¬ SpecClaimC1 := by
  intro h
  have inst := h ⟨1, str "!", 0⟩ [] 1 (by decide) (by decide) (by decide)
  exact absurd (inst.1 (by decide)).1 (by decide)

/-- C1 amended: the punctuation-merge rule as claimed, for *non-empty*
end-of-turn transcripts (the handler ignores empty transcripts
entirely before the merge check). -/
theorem c1_punctuation_merge (st : SessionState) (t : List Nat) (now : ℤ)
    (ht : t ≠ [])
    (h1 : normalize_text t = normalize_text st.lastRaw)
    (h2 : st.lastRaw ≠ [])
    (h3 : now - st.lastTs < 2) :
    ((t ≠ st.lastRaw →
        (handle_turn st t true now).1 = [Event.turnUpdated st.turnCount t] ∧
        (handle_turn st t true now).2.1
          = { st with lastRaw := t, lastTs := now }) ∧
     (t = st.lastRaw → (handle_turn st t true now).1 = []) ∧
     (handle_turn st t true now).2.1.turnCount = st.turnCount ∧
     (handle_turn st t true now).2.2 = none) := by
  have hcond : normalize_text t = normalize_text st.lastRaw ∧
      st.lastRaw ≠ [] ∧ now - st.lastTs < 2 := ⟨h1, h2, h3⟩
  by_cases he : t = st.lastRaw
  · refine ⟨fun hne => absurd he hne, fun _ => ?_, ?_, ?_⟩ <;>
      simp [handle_turn, ht, hcond, he]
  · refine ⟨fun _ => ⟨?_, ?_⟩, fun heq => absurd heq he, ?_, ?_⟩ <;>
      simp [handle_turn, ht, hcond, he]

/-- Witness for C1 amended: `"Hello."` arriving 1 s after stored raw
`"hello"` (same normalized form) yields exactly one `turn_updated` for
the current turn and no pipeline. -/
theorem c1_witness :
    ((str "Hello." ≠ []) ∧
      normalize_text (str "Hello.") = normalize_text (str "hello") ∧
      ((1 : ℤ) - 0 < 2)) ∧
    (handle_turn ⟨1, str "hello", 0⟩ (str "Hello.") true 1).1
      = [Event.turnUpdated 1 (str "Hello.")] ∧
    (handle_turn ⟨1, str "hello", 0⟩ (str "Hello.") true 1).2.2 = none := by
  have main := c1_punctuation_merge ⟨1, str "hello", 0⟩ (str "Hello.") 1
    (by decide) (by decide) (by decide) (by decide)
  exact ⟨⟨by decide, by decide, by decide⟩,
    (main.1 (by decide)).1, main.2.2.2⟩

/-! ### Cross-turn pipeline scheduling (`schedule_llm_streaming`) — claim C2 -/

/-- Observable pipeline lifecycle events for one session:
`start n` when turn `n`'s `stream_llm_response` thread is spawned,
`exit n` when that thread finishes. -/
inductive TEv
| start (n : Nat)
| exit (n : Nat)
deriving DecidableEq, Repr

/-- Whole-session scheduling state: the turn tracker, the set of
currently running reply-pipeline threads, and the lifecycle trace. -/
structure SysState where
  sess : SessionState
  running : List Nat
  trace : List TEv
deriving DecidableEq, Repr

/-- Fresh session: no turns, no running pipelines. -/
def initSys : SysState := ⟨initSession, [], []⟩

/-- Effect of one STT end-of-turn callback: run the turn handler; when
it confirms a new turn, `schedule_llm_streaming` spawns the pipeline
thread immediately (`threading.Thread(...).start()`), with no wait on
previously spawned pipelines. -/
def applySTT (s : SysState) (t : List Nat) (now : ℤ) : SysState :=
  let r := handle_turn s.sess t true now
  match r.2.2 with
  | some p => ⟨r.2.1, p.1 :: s.running, s.trace ++ [TEv.start p.1]⟩
  | none => ⟨r.2.1, s.running, s.trace⟩

/-- Effect of pipeline thread `n` running to completion. -/
def applyFinish (s : SysState) (n : Nat) : SysState :=
  ⟨s.sess, s.running.erase n, s.trace ++ [TEv.exit n]⟩

/-- Session states reachable from a fresh session by STT end-of-turn
callbacks and pipeline-thread completions, in any interleaving. -/
inductive Reachable : SysState → Prop
| init : Reachable initSys
| stt {s : SysState} (t : List Nat) (now : ℤ) :
    Reachable s → Reachable (applySTT s t now)
| finish {s : SysState} (n : Nat) :
    Reachable s → n ∈ s.running → Reachable (applyFinish s n)

/-- Trace check: every `start (m)` with `m ≥ 2` is preceded by
`exit (m-1)` — i.e. turn `m`'s pipeline begins only after turn
`m-1`'s pipeline has fully exited. -/
def serializedAux : List Nat → List TEv → Bool
| _, [] => true
| exited, TEv.start m :: r =>
    (decide (m ≤ 1) || decide ((m - 1) ∈ exited)) && serializedAux exited r
| exited, TEv.exit n :: r => serializedAux (n :: exited) r

/-- Claim C2 as stated: in every reachable session state the pipeline
lifecycle trace is serialized across consecutive turns. -/
def SpecClaimC2 : Prop :=
  ∀ s : SysState, Reachable s → serializedAux [] s.trace = true

/-- C2 counterexample: two back-to-back confirmed turns (`"hello"` at
t=0, `"bye"` at t=10) spawn both pipeline threads with no exit in
between — the reachable trace `[start 1, start 2]` is not serialized. -/
theorem c2_counterexample : ¬ SpecClaimC2 := by
  intro h
  have hr : Reachable (applySTT (applySTT initSys (str "hello") 0) (str "bye") 10) :=
    Reachable.stt _ _ (Reachable.stt _ _ Reachable.init)
  exact absurd (h _ hr) (by decide)

/-- C2 amended: the code does not serialize reply pipelines across
turns — spawning a new turn's pipeline leaves every previously running
pipeline untouched (no wait), and a session can reach a state where
turn 2's pipeline has started while turn 1's has not exited. -/
theorem c2_no_serialization :
    (∀ (s : SysState) (t : List Nat) (now : ℤ) (n : Nat),
      n ∈ s.running → n ∈ (applySTT s t now).running) ∧
    (∃ s : SysState, Reachable s ∧
      1 ∈ s.running ∧ 2 ∈ s.running ∧ serializedAux [] s.trace = false) := by
  constructor
  · intro s t now n hn
    simp only [applySTT]
    cases hh : (handle_turn s.sess t true now).2.2 with
    | none => simpa using hn
    | some p => simp only [List.mem_cons]; exact Or.inr hn
  · refine ⟨applySTT (applySTT initSys (str "hello") 0) (str "bye") 10,
      Reachable.stt _ _ (Reachable.stt _ _ Reachable.init), by decide, by decide, by decide⟩

/-- Witness for C2 amended: with turn 1's pipeline running, an STT
end-of-turn leaves it running. -/
theorem c2_witness :
    (1 ∈ (⟨initSession, [1], [TEv.start 1]⟩ : SysState).running) ∧
    1 ∈ (applySTT ⟨initSession, [1], [TEv.start 1]⟩ (str "hi") 0).running := by
  exact ⟨by decide,
    c2_no_serialization.1 ⟨initSession, [1], [TEv.start 1]⟩ (str "hi") 0 1 (by decide)⟩

/-! ### Murf TTS adapter (`services/murf_ws.py`) — claims C3, C7 -/

/-- `_handle_audio_chunk`'s header logic: on the first chunk, and only
when the decoded payload exceeds 44 bytes, drop the 44-byte WAV header
and clear the first-chunk flag. -/
def processAudio (first : Bool) (b : List Nat) : List Nat × Bool :=
  if first ∧ 44 < b.length then (b.drop 44, false) else (b, first)

/-- The per-connection forwarding of a sequence of decoded audio
payloads: empty payloads are skipped (`if not audio_base64: return`),
the others pass through `processAudio` and are re-encoded for the
client unchanged. -/
def murfForward : Bool → List (List Nat) → List (List Nat)
| _, [] => []
| f, b :: r =>
    if b = [] then murfForward f r
    else (processAudio f b).1 :: murfForward (processAudio f b).2 r

/-- Claim C7 as stated: exactly the first 44 bytes are stripped from
the first audio message and every other message is forwarded
byte-for-byte, whatever the size of the first message. -/
def SpecClaimC7 : Prop :=
  ∀ msgs : List (List Nat),
    murfForward true msgs =
      (match msgs with
       | [] => []
       | m :: r => m.drop 44 :: r)

/-- C7 counterexample: a 10-byte first message is forwarded whole
(nothing stripped, flag still set) and the 100-byte second message
then loses its first 44 bytes — the opposite of the claim on both
messages. -/
theorem c7_counterexample : ¬ SpecClaimC7 := by
  intro h
  exact absurd (h [List.replicate 10 0, List.replicate 100 1]) (by decide)

/-- Strip the 44-byte header from the first message longer than
44 bytes, leaving everything else untouched. -/
def stripFirstLong : List (List Nat) → List (List Nat)
| [] => []
| m :: r => if 44 < m.length then m.drop 44 :: r else m :: stripFirstLong r

lemma murfForward_false (msgs : List (List Nat)) :
    murfForward false msgs = msgs.filter (fun b => !b.isEmpty) := by
  induction msgs with
  | nil => rfl
  | cons b r ih =>
    by_cases hb : b = []
    · subst hb; simpa [murfForward] using ih
    · rw [murfForward, if_neg hb]
      have hb' : b.isEmpty = false := by
        cases b with
        | nil => exact absurd rfl hb
        | cons x xs => rfl
      simp [processAudio, hb', ih]

/-- C7 amended: WAV-header elision as implemented — empty payloads are
skipped; the first *nonempty* payload *longer than 44 bytes* loses its
first 44 bytes (payloads of 44 bytes or fewer before it pass through
whole, leaving the flag set); every later payload is forwarded
unchanged. -/
theorem c7_wav_header_elision (msgs : List (List Nat)) :
    murfForward true msgs = stripFirstLong (msgs.filter (fun b => !b.isEmpty)) := by
  induction msgs with
  | nil => rfl
  | cons b r ih =>
    by_cases hb : b = []
    · subst hb; simpa [murfForward] using ih
    · have hb' : b.isEmpty = false := by
        cases b with
        | nil => exact absurd rfl hb
        | cons x xs => rfl
      rw [murfForward, if_neg hb]
      by_cases hlen : 44 < b.length
      · simp [processAudio, hlen, hb', stripFirstLong, murfForward_false]
      · simp [processAudio, hlen, hb', stripFirstLong, ih]

/-! #### Completion detection (`_listen_for_responses`, `_delayed_completion`,
`_handle_completion`, `wait_for_complete`) -/

/-- Per-turn state of a connected `MurfStreamInputWS`:
`first_chunk`, `completion_event`, whether the listener loop has
exited, the chunk counter, the silence-timer bookkeeping, and the
events sent to the client so far. -/
structure MurfSt where
  firstChunk : Bool
  completed : Bool
  halted : Bool
  chunksSent : Nat
  lastChunkTime : ℤ
  timerActive : Bool
  out : List Event
deriving DecidableEq, Repr

/-- State right after `connect` succeeds for a turn. -/
def initMurf : MurfSt := ⟨true, false, false, 0, 0, false, []⟩

/-- `_handle_completion`: if the completion event is already set do
nothing, otherwise send the terminating empty `final=true` audio chunk
and `audio_streaming_complete`, then set the event. -/
def handle_completion (turn : Nat) (s : MurfSt) : MurfSt :=
  if s.completed then s
  else
    { s with
      completed := true,
      out := s.out ++
        [Event.audioChunk turn [] true, Event.audioStreamingComplete turn] }

/-- `_handle_audio_chunk`: skip empty payloads, otherwise apply the
first-chunk header logic and forward one `final=false` audio chunk. -/
def handle_audio_chunk (turn : Nat) (s : MurfSt) (b : List Nat) : MurfSt :=
  if b = [] then s
  else
    { s with
      firstChunk := (processAudio s.firstChunk b).2,
      chunksSent := s.chunksSent + 1,
      out := s.out ++
        [Event.audioChunk turn (processAudio s.firstChunk b).1 false] }

/-- Inputs that can reach the adapter for one turn: an upstream
message carrying audio (at wall time `t`), an upstream `final` marker,
the 1 s silence timer firing, the upstream connection closing (or the
listener erroring out), and the outer `wait_for_complete` timeout. -/
inductive MIn
| recvAudio (b : List Nat) (t : ℤ)
| recvFinal (t : ℤ)
| timerFire (t : ℤ)
| connClose
| waitTimeout
deriving DecidableEq, Repr

/-- One adapter step.  After the listener loop has exited (`halted`)
upstream inputs are ignored.  An audio message is forwarded, the
last-chunk time is reset and the silence timer restarted; a `final`
marker triggers completion and breaks the loop; the silence timer
triggers completion when a chunk has been seen and 1 s has passed
since; connection close runs the listener's `finally` completion;
`wait_for_complete` timeout forces completion. -/
def murfStep (turn : Nat) (s : MurfSt) : MIn → MurfSt
| .recvAudio b t =>
    if s.halted then s
    else
      let s1 := handle_audio_chunk turn s b
      { s1 with lastChunkTime := t, timerActive := true }
| .recvFinal _ =>
    if s.halted then s
    else
      let s1 := handle_completion turn s
      { s1 with halted := true }
| .timerFire t =>
    if s.halted then s
    else if s.timerActive ∧ 1 ≤ t - s.lastChunkTime then handle_completion turn s
    else s
| .connClose =>
    if s.halted then s
    else
      let s1 := handle_completion turn s
      { s1 with halted := true }
| .waitTimeout =>
    if s.halted then s else handle_completion turn s

/-- Run the adapter over a sequence of inputs. -/
def murfRun (turn : Nat) (s : MurfSt) (ins : List MIn) : MurfSt :=
  ins.foldl (murfStep turn) s

/-- The terminating audio chunk: `final=true` with empty payload. -/
def isTermChunk : Event → Bool
| .audioChunk _ d f => f && d.isEmpty
| _ => false

/-- An `audio_streaming_complete` event. -/
def isASC : Event → Bool
| .audioStreamingComplete _ => true
| _ => false

/-- The two completion sources the claim names: the upstream final
flag and the silence timer. -/
def namedSource : MIn → Bool
| .recvFinal _ => true
| .timerFire _ => true
| _ => false

/-- The completion sources that fire unconditionally in the code:
upstream final, listener termination, and the wait timeout. -/
def uncondSource : MIn → Bool
| .recvFinal _ => true
| .connClose => true
| .waitTimeout => true
| _ => false

/-- Claim C3 as stated: whenever the final audio pair is emitted, it
was triggered by one of the two named sources (upstream final flag, or
1 s upstream silence after a chunk). -/
def SpecClaimC3 : Prop :=
  ∀ (turn : Nat) (ins : List MIn),
    1 ≤ ((murfRun turn initMurf ins).out.countP isASC) →
    ins.any namedSource = true

/-- C3 counterexample: the upstream connection closing before any
final flag or silence timeout still emits the final pair, via the
listener's `finally` completion — a third trigger source the claim
excludes. -/
theorem c3_counterexample : ¬ SpecClaimC3 := by
  intro h
  exact absurd (h 1 [MIn.connClose] (by decide)) (by decide)

lemma murf_completed_counts (turn : Nat) (s : MurfSt) (i : MIn)
    (h1 : s.out.countP isASC = (if s.completed then 1 else 0))
    (h2 : s.out.countP isTermChunk = (if s.completed then 1 else 0)) :
    (murfStep turn s i).out.countP isASC
        = (if (murfStep turn s i).completed then 1 else 0) ∧
      (murfStep turn s i).out.countP isTermChunk
        = (if (murfStep turn s i).completed then 1 else 0) := by
  cases i with
  | recvAudio b t =>
    by_cases hh : s.halted
    · simp [murfStep, hh, h1, h2]
    · by_cases hb : b = []
      · simp [murfStep, hh, handle_audio_chunk, hb, h1, h2]
      · simp [murfStep, hh, handle_audio_chunk, hb, List.countP_append, h1, h2,
          isASC, isTermChunk]
  | recvFinal t =>
    by_cases hh : s.halted
    · simp [murfStep, hh, h1, h2]
    · by_cases hc : s.completed
      · simp [murfStep, hh, handle_completion, hc, h1, h2]
      · simp [murfStep, hh, handle_completion, hc, List.countP_append, h1, h2,
          isASC, isTermChunk]
  | timerFire t =>
    by_cases hh : s.halted
    · simp [murfStep, hh, h1, h2]
    · by_cases ht : s.timerActive ∧ 1 ≤ t - s.lastChunkTime
      · by_cases hc : s.completed
        · simp [murfStep, hh, ht, handle_completion, hc, h1, h2]
        · simp [murfStep, hh, ht, handle_completion, hc, List.countP_append,
            h1, h2, isASC, isTermChunk]
      · simp [murfStep, hh, ht, h1, h2]
  | connClose =>
    by_cases hh : s.halted
    · simp [murfStep, hh, h1, h2]
    · by_cases hc : s.completed
      · simp [murfStep, hh, handle_completion, hc, h1, h2]
      · simp [murfStep, hh, handle_completion, hc, List.countP_append, h1, h2,
          isASC, isTermChunk]
  | waitTimeout =>
    by_cases hh : s.halted
    · simp [murfStep, hh, h1, h2]
    · by_cases hc : s.completed
      · simp [murfStep, hh, handle_completion, hc, h1, h2]
      · simp [murfStep, hh, handle_completion, hc, List.countP_append, h1, h2,
          isASC, isTermChunk]

/-- The invariant carried through a run: the counts of terminating
chunks and of `audio_streaming_complete` both equal 1 iff completion
has fired, and a halted listener implies completion fired. -/
def MurfInv (s : MurfSt) : Prop :=
  s.out.countP isASC = (if s.completed then 1 else 0) ∧
  s.out.countP isTermChunk = (if s.completed then 1 else 0) ∧
  (s.halted = true → s.completed = true)

lemma murfStep_inv (turn : Nat) (s : MurfSt) (i : MIn) (h : MurfInv s) :
    MurfInv (murfStep turn s i) := by
  obtain ⟨h1, h2, h3⟩ := h
  obtain ⟨g1, g2⟩ := murf_completed_counts turn s i h1 h2
  refine ⟨g1, g2, ?_⟩
  cases i with
  | recvAudio b t =>
    by_cases hh : s.halted
    · simpa [murfStep, hh] using h3
    · simp [murfStep, hh, handle_audio_chunk]
      intro hfalse
      by_cases hb : b = [] <;> simp [hb, hh] at hfalse ⊢ <;> simp_all
  | recvFinal t =>
    by_cases hh : s.halted
    · simpa [murfStep, hh] using h3
    · simp [murfStep, hh, handle_completion]
      by_cases hc : s.completed <;> simp [hc]
  | timerFire t =>
    by_cases hh : s.halted
    · simpa [murfStep, hh] using h3
    · by_cases ht : s.timerActive ∧ 1 ≤ t - s.lastChunkTime
      · simp [murfStep, hh, ht, handle_completion]
        by_cases hc : s.completed <;> simp [hc, h3]
      · simpa [murfStep, hh, ht] using h3
  | connClose =>
    by_cases hh : s.halted
    · simpa [murfStep, hh] using h3
    · simp [murfStep, hh, handle_completion]
      by_cases hc : s.completed <;> simp [hc]
  | waitTimeout =>
    by_cases hh : s.halted
    · simpa [murfStep, hh] using h3
    · simp [murfStep, hh, handle_completion]
      by_cases hc : s.completed <;> simp [hc, h3]

lemma murfRun_inv (turn : Nat) (ins : List MIn) :
    ∀ s : MurfSt, MurfInv s → MurfInv (murfRun turn s ins) := by
  induction ins with
  | nil => intro s h; exact h
  | cons i r ih =>
    intro s h
    exact ih (murfStep turn s i) (murfStep_inv turn s i h)

lemma murfStep_completed_mono (turn : Nat) (s : MurfSt) (i : MIn)
    (h : s.completed = true) : (murfStep turn s i).completed = true := by
  cases i <;> simp [murfStep, handle_completion, handle_audio_chunk, h] <;>
    split <;> simp [handle_completion, handle_audio_chunk, h] <;>
    split <;> simp_all

lemma murfRun_completed_mono (turn : Nat) (ins : List MIn) :
    ∀ s : MurfSt, s.completed = true → (murfRun turn s ins).completed = true := by
  induction ins with
  | nil => intro s h; exact h
  | cons i r ih =>
    intro s h
    exact ih (murfStep turn s i) (murfStep_completed_mono turn s i h)

lemma murfStep_uncond_completed (turn : Nat) (s : MurfSt) (i : MIn)
    (hinv : MurfInv s) (hu : uncondSource i = true) :
    (murfStep turn s i).completed = true := by
  cases i with
  | recvAudio b t => simp [uncondSource] at hu
  | timerFire t => simp [uncondSource] at hu
  | recvFinal t =>
    by_cases hh : s.halted
    · simpa [murfStep, hh] using hinv.2.2 hh
    · simp [murfStep, hh, handle_completion]
      by_cases hc : s.completed <;> simp [hc]
  | connClose =>
    by_cases hh : s.halted
    · simpa [murfStep, hh] using hinv.2.2 hh
    · simp [murfStep, hh, handle_completion]
      by_cases hc : s.completed <;> simp [hc]
  | waitTimeout =>
    by_cases hh : s.halted
    · simpa [murfStep, hh] using hinv.2.2 hh
    · simp [murfStep, hh, handle_completion]
      by_cases hc : s.completed <;> simp [hc]

lemma murfStep_timer_completed (turn : Nat) (s : MurfSt) (t : ℤ)
    (hh : s.halted = false) (ht : s.timerActive = true)
    (hge : 1 ≤ t - s.lastChunkTime) :
    (murfStep turn s (MIn.timerFire t)).completed = true := by
  simp only [murfStep, hh, Bool.false_eq_true, if_false, ht, hge, and_self,
    if_true, true_and, if_pos]
  by_cases hc : s.completed = true
  · simpa [handle_completion, hc] using hc
  · simp [handle_completion, hc]

/-- C3 amended: for each turn the terminating pair (empty `final=true`
audio chunk + `audio_streaming_complete`) is emitted at most once —
the `completion_event` guard — and exactly once as soon as any
completion source fires; but the completion sources are four, not two:
upstream final flag, 1 s silence after an audio message (the silence
timer firing while armed), listener termination (connection close or
error), and the 90 s `wait_for_complete` timeout.  Whichever fires
first wins. -/
theorem c3_final_pair_once (turn : Nat) (ins : List MIn) :
    ((murfRun turn initMurf ins).out.countP isASC ≤ 1 ∧
      (murfRun turn initMurf ins).out.countP isTermChunk ≤ 1) ∧
    (ins.any uncondSource = true →
      (murfRun turn initMurf ins).out.countP isASC = 1 ∧
      (murfRun turn initMurf ins).out.countP isTermChunk = 1) ∧
    (∀ (l1 : List MIn) (t : ℤ) (l2 : List MIn),
      ins = l1 ++ MIn.timerFire t :: l2 →
      (murfRun turn initMurf l1).halted = false →
      (murfRun turn initMurf l1).timerActive = true →
      1 ≤ t - (murfRun turn initMurf l1).lastChunkTime →
      (murfRun turn initMurf ins).out.countP isASC = 1 ∧
      (murfRun turn initMurf ins).out.countP isTermChunk = 1) := by
  have hinv0 : MurfInv initMurf := by refine ⟨rfl, rfl, ?_⟩; intro h; cases h
  have hinv := murfRun_inv turn ins initMurf hinv0
  refine ⟨⟨?_, ?_⟩, ?_, ?_⟩
  · rw [hinv.1]; split <;> omega
  · rw [hinv.2.1]; split <;> omega
  · intro hany
    rcases List.any_eq_true.mp hany with ⟨i, hi, hu⟩
    rcases List.append_of_mem hi with ⟨l1, l2, rfl⟩
    have hinv1 : MurfInv (murfRun turn initMurf l1) :=
      murfRun_inv turn l1 initMurf hinv0
    have hc : (murfStep turn (murfRun turn initMurf l1) i).completed = true :=
      murfStep_uncond_completed turn _ i hinv1 hu
    have hfin : (murfRun turn initMurf (l1 ++ i :: l2)).completed = true := by
      have : murfRun turn initMurf (l1 ++ i :: l2)
          = murfRun turn (murfStep turn (murfRun turn initMurf l1) i) l2 := by
        simp [murfRun, List.foldl_append]
      rw [this]
      exact murfRun_completed_mono turn l2 _ hc
    have hinvf : MurfInv (murfRun turn initMurf (l1 ++ i :: l2)) :=
      murfRun_inv turn _ initMurf hinv0
    rw [hinvf.1, hinvf.2.1, hfin]
    exact ⟨rfl, rfl⟩
  · intro l1 t l2 heq hh ht hge
    subst heq
    have hc : (murfStep turn (murfRun turn initMurf l1) (MIn.timerFire t)).completed
        = true := murfStep_timer_completed turn _ t hh ht hge
    have hfin : (murfRun turn initMurf (l1 ++ MIn.timerFire t :: l2)).completed
        = true := by
      have : murfRun turn initMurf (l1 ++ MIn.timerFire t :: l2)
          = murfRun turn
              (murfStep turn (murfRun turn initMurf l1) (MIn.timerFire t)) l2 := by
        simp [murfRun, List.foldl_append]
      rw [this]
      exact murfRun_completed_mono turn l2 _ hc
    have hinvf : MurfInv (murfRun turn initMurf (l1 ++ MIn.timerFire t :: l2)) :=
      murfRun_inv turn _ initMurf hinv0
    rw [hinvf.1, hinvf.2.1, hfin]
    exact ⟨rfl, rfl⟩

/-- Witness for C3 amended: a stream delivering one audio chunk and
then the upstream final flag emits the pair exactly once; and a stream
delivering one audio chunk and then only the armed silence timer
firing 2 s later (no upstream final at all) also emits the pair
exactly once. -/
theorem c3_witness :
    (([MIn.recvAudio (List.replicate 50 7) 0, MIn.recvFinal 1].any uncondSource
        = true) ∧
      (murfRun 1 initMurf
          [MIn.recvAudio (List.replicate 50 7) 0, MIn.recvFinal 1]).out.countP isASC
        = 1 ∧
      (murfRun 1 initMurf
          [MIn.recvAudio (List.replicate 50 7) 0,
            MIn.recvFinal 1]).out.countP isTermChunk = 1) ∧
    (((murfRun 1 initMurf [MIn.recvAudio (List.replicate 50 7) 0]).halted = false ∧
        (murfRun 1 initMurf [MIn.recvAudio (List.replicate 50 7) 0]).timerActive
          = true ∧
        1 ≤ 2 - (murfRun 1 initMurf
          [MIn.recvAudio (List.replicate 50 7) 0]).lastChunkTime) ∧
      (murfRun 1 initMurf
          [MIn.recvAudio (List.replicate 50 7) 0,
            MIn.timerFire 2]).out.countP isASC = 1 ∧
      (murfRun 1 initMurf
          [MIn.recvAudio (List.replicate 50 7) 0,
            MIn.timerFire 2]).out.countP isTermChunk = 1) := by
  constructor
  · refine ⟨by decide, ?_⟩
    exact (c3_final_pair_once 1
      [MIn.recvAudio (List.replicate 50 7) 0, MIn.recvFinal 1]).2.1 (by decide)
  · refine ⟨⟨by decide, by decide, by decide⟩, ?_⟩
    exact (c3_final_pair_once 1
        [MIn.recvAudio (List.replicate 50 7) 0, MIn.timerFire 2]).2.2
      [MIn.recvAudio (List.replicate 50 7) 0] 2 [] rfl
      (by decide) (by decide) (by decide)

/-! ### Reply pipeline (`schedule_llm_streaming` / `stream_llm_response`)
— claims C4, C6, C8, C10 -/

/-- The rate-limit denial message sent by `stream_llm_response`. -/
def quotaMessage : List Nat := str "Daily quota limit reached. Try again tomorrow!"

/-- How the TTS leg of a turn behaves: `connected` with the audio
chunks the Murf listener forwarded to the client (payload and `final`
flag), or `mockFallback` when `MurfStreamInputWS.connect` raised and
the adapter silently switched to mock audio. -/
inductive MurfMode
| connected (audio : List (List Nat × Bool))
| mockFallback
deriving DecidableEq, Repr

/-- How the LLM/TTS legs of one `stream_llm_response` run behave:
`startFail` — an exception before the Murf task streamed anything
(missing `GEMINI_API_KEY` in `get_streaming_llm_response`, missing
`MURF_API_KEY`, a failure opening the chat); or `run chunks mode
completed` — the Murf task streamed `chunks` from the LLM iterator,
with `completed = true` iff the stream ended normally and reached the
`chat_histories[session_id] = chat_instance.history` line (an
exception inside the task after that, or none at all); `completed =
false` means the task raised mid-stream, which `murf_task.result`'s
`except` clause swallows. -/
inductive Behavior
| startFail (err : List Nat)
| run (chunks : List (List Nat)) (mode : MurfMode) (completed : Bool)
deriving DecidableEq, Repr

/-- The `llm_chunk` events for a list of LLM text fragments, carrying
the running accumulation. -/
def chunkEvents (turn : Nat) : List Nat → List (List Nat) → List Event
| _, [] => []
| acc, c :: r => Event.llmChunk turn c (acc ++ c) :: chunkEvents turn (acc ++ c) r

/-- The audio-side events of a turn.  In mock mode
`_generate_mock_audio` sends one `final=true` chunk carrying the
synthesized WAV (`mockWav` stands for the float-synthesized payload of
`_create_realistic_wav`, whose exact bytes no claim depends on) and
then `_handle_completion` sends the terminating pair. -/
def audioEvents (turn : Nat) (mockWav : List Nat) : MurfMode → List Event
| .connected audio => audio.map (fun p => Event.audioChunk turn p.1 p.2)
| .mockFallback =>
    [Event.audioChunk turn mockWav true, Event.audioChunk turn [] true,
     Event.audioStreamingComplete turn]

/-- Result of one `stream_llm_response` run: the events emitted to the
client, the limiter afterwards, and the session's chat history
afterwards (as user/assistant text pairs). -/
structure PipelineResult where
  events : List Event
  limiter : RateLimiter
  history : List (List Nat × List Nat)
deriving DecidableEq, Repr

/-- `stream_llm_response`, the body of the per-turn pipeline thread:
rate-limit admission (deny → one `llm_error` and return), then record
the call, emit `llm_streaming_start`, stream LLM chunks (each as an
`llm_chunk` plus a Murf text frame), update the chat history when the
stream ends, and emit `llm_streaming_complete`; any pre-stream
exception yields `llm_error` instead, and mid-stream Murf-task
exceptions are swallowed (history not updated). -/
def stream_llm_response (rl : RateLimiter) (now : ℤ)
    (hist : List (List Nat × List Nat)) (user : List Nat) (turn : Nat)
    (mockWav : List Nat) (beh : Behavior) : PipelineResult :=
  let p := can_make_request rl now
  if p.2 = false then ⟨[Event.llmError turn quotaMessage], p.1, hist⟩
  else
    let rl2 := add_request p.1 now
    match beh with
    | .startFail err => ⟨[Event.llmStreamingStart turn, Event.llmError turn err], rl2, hist⟩
    | .run chunks mode completed =>
        ⟨Event.llmStreamingStart turn ::
            (chunkEvents turn [] chunks ++ audioEvents turn mockWav mode ++
              [Event.llmStreamingComplete turn chunks.flatten]),
         rl2,
         if completed then hist ++ [(user, chunks.flatten)] else hist⟩

/-- Does an event carry LLM text to the client? -/
def isLlmChunkEv : Event → Bool
| .llmChunk _ _ _ => true
| _ => false

/-- Is the event an `audio_chunk`? -/
def isAudioChunkEv : Event → Bool
| .audioChunk _ _ _ => true
| _ => false

/-- Is the event an `error` (the session-level error type)? -/
def isErrorEv : Event → Bool
| .errorEvent _ => true
| _ => false

/-- Is the event an `llm_streaming_complete`? -/
def isLlmCompleteEv : Event → Bool
| .llmStreamingComplete _ _ => true
| _ => false

/-- Claim C4 as stated: on rate-limit denial the pipeline emits
exactly one `llm_error` whose error text is `"Daily quota limit
reached"`, no `llm_chunk`, no `audio_chunk`, and leaves history
unchanged. -/
def SpecClaimC4 : Prop :=
  ∀ (rl : RateLimiter) (now : ℤ) (hist : List (List Nat × List Nat))
    (user : List Nat) (turn : Nat) (mockWav : List Nat) (beh : Behavior),
    (can_make_request rl now).2 = false →
    (stream_llm_response rl now hist user turn mockWav beh).events
      = [Event.llmError turn (str "Daily quota limit reached")] ∧
    (stream_llm_response rl now hist user turn mockWav beh).history = hist

/-- C4 counterexample: with the limiter full (40 fresh timestamps) the
emitted error text is `"Daily quota limit reached. Try again
tomorrow!"`, not the claimed `"Daily quota limit reached"`. -/
theorem c4_counterexample : ¬ SpecClaimC4 := by
  intro h
  have inst := h ⟨40, 86400, List.replicate 40 0⟩ 0 [] (str "hi") 1 []
    (Behavior.startFail []) (by decide)
  exact absurd inst.1 (by decide)

/-- C4 amended: rate-limit denial is a soft failure — exactly one
`llm_error` for the turn, whose text is `"Daily quota limit reached.
Try again tomorrow!"` (matching `/quota/i`), no `llm_chunk`, no
`audio_chunk`, history untouched, limiter not charged, and the
pipeline simply returns so the session survives. -/
theorem c4_rate_limit_denial (rl : RateLimiter) (now : ℤ)
    (hist : List (List Nat × List Nat)) (user : List Nat) (turn : Nat)
    (mockWav : List Nat) (beh : Behavior)
    (hdeny : (can_make_request rl now).2 = false) :
    (stream_llm_response rl now hist user turn mockWav beh).events
      = [Event.llmError turn quotaMessage] ∧
    List.IsInfix (str "quota") quotaMessage ∧
    (stream_llm_response rl now hist user turn mockWav beh).events.any isLlmChunkEv
      = false ∧
    (stream_llm_response rl now hist user turn mockWav beh).events.any isAudioChunkEv
      = false ∧
    (stream_llm_response rl now hist user turn mockWav beh).history = hist ∧
    (stream_llm_response rl now hist user turn mockWav beh).limiter
      = (can_make_request rl now).1 := by
  refine ⟨?_, by decide, ?_, ?_, ?_, ?_⟩ <;>
    simp [stream_llm_response, hdeny, isLlmChunkEv, isAudioChunkEv]

/-- Witness for C4 amended on a concrete full limiter. -/
theorem c4_witness :
    ((can_make_request ⟨40, 86400, List.replicate 40 0⟩ 0).2 = false) ∧
    (stream_llm_response ⟨40, 86400, List.replicate 40 0⟩ 0 [] (str "hi") 1 []
        (Behavior.run [str "x"] MurfMode.mockFallback true)).events
      = [Event.llmError 1 quotaMessage] := by
  refine ⟨by decide, ?_⟩
  exact (c4_rate_limit_denial ⟨40, 86400, List.replicate 40 0⟩ 0 [] (str "hi") 1 []
    (Behavior.run [str "x"] MurfMode.mockFallback true) (by decide)).1

/-- Did this behavior reach the history-update line? -/
def behCompleted : Behavior → Bool
| .run _ _ c => c
| _ => false

/-- Accumulated assistant text of a behavior. -/
def behAcc : Behavior → List Nat
| .run chunks _ _ => chunks.flatten
| _ => []

/-- Claim C6 as stated (the part the code violates): a turn whose LLM
stream ends having produced zero text leaves the history unchanged. -/
def SpecClaimC6 : Prop :=
  ∀ (rl : RateLimiter) (now : ℤ) (hist : List (List Nat × List Nat))
    (user : List Nat) (turn : Nat) (mockWav : List Nat)
    (chunks : List (List Nat)) (mode : MurfMode),
    (can_make_request rl now).2 = true →
    chunks.flatten = [] →
    (stream_llm_response rl now hist user turn mockWav
        (Behavior.run chunks mode true)).history = hist

/-- C6 counterexample: an admitted turn whose LLM stream ends with
zero chunks still executes `chat_histories[session_id] =
chat_instance.history`, appending the pair `(user, "")`. -/
theorem c6_counterexample : ¬ SpecClaimC6 := by
  intro h
  have inst := h RateLimiter.init 0 [] (str "hi") 1 [] [] MurfMode.mockFallback
    (by decide) (by decide)
  exact absurd inst (by decide)

/-- C6 amended: the history is updated — with the pair `(user_text,
accumulated_response)`, even when the accumulated response is empty —
exactly when the turn was admitted and the LLM stream ended normally
(reaching the history-update line); denial, pre-stream failure and
mid-stream exceptions leave it unchanged. -/
theorem c6_history_update (rl : RateLimiter) (now : ℤ)
    (hist : List (List Nat × List Nat)) (user : List Nat) (turn : Nat)
    (mockWav : List Nat) (beh : Behavior) :
    (stream_llm_response rl now hist user turn mockWav beh).history
      = if (can_make_request rl now).2 && behCompleted beh
        then hist ++ [(user, behAcc beh)] else hist := by
  cases hok : (can_make_request rl now).2 with
  | false => simp [stream_llm_response, hok]
  | true =>
    cases beh with
    | startFail err => simp [stream_llm_response, hok, behCompleted]
    | run chunks mode completed =>
      cases completed <;>
        simp [stream_llm_response, hok, behCompleted, behAcc]

/-- Claim C8 as stated: on TTS connect failure the client gets an
`error` event, `llm_streaming_complete` but no
`audio_streaming_complete`. -/
def SpecClaimC8 : Prop :=
  ∀ (rl : RateLimiter) (now : ℤ) (hist : List (List Nat × List Nat))
    (user : List Nat) (turn : Nat) (mockWav : List Nat)
    (chunks : List (List Nat)) (completed : Bool),
    (can_make_request rl now).2 = true →
    (stream_llm_response rl now hist user turn mockWav
        (Behavior.run chunks MurfMode.mockFallback completed)).events.any isErrorEv
      = true ∧
    (stream_llm_response rl now hist user turn mockWav
        (Behavior.run chunks MurfMode.mockFallback completed)).events.any isASC
      = false

lemma chunkEvents_isErrorEv (turn : Nat) (chunks : List (List Nat)) :
    ∀ acc, (chunkEvents turn acc chunks).any isErrorEv = false := by
  induction chunks with
  | nil => intro acc; rfl
  | cons c r ih => intro acc; simp [chunkEvents, isErrorEv, ih]

lemma chunkEvents_isASC (turn : Nat) (chunks : List (List Nat)) :
    ∀ acc, (chunkEvents turn acc chunks).any isASC = false := by
  induction chunks with
  | nil => intro acc; rfl
  | cons c r ih => intro acc; simp [chunkEvents, isASC, ih]

lemma chunkEvents_isLlmCompleteEv (turn : Nat) (chunks : List (List Nat)) :
    ∀ acc, (chunkEvents turn acc chunks).any isLlmCompleteEv = false := by
  induction chunks with
  | nil => intro acc; rfl
  | cons c r ih => intro acc; simp [chunkEvents, isLlmCompleteEv, ih]

lemma chunkEvents_countP_isASC (turn : Nat) (chunks : List (List Nat)) :
    ∀ acc, (chunkEvents turn acc chunks).countP isASC = 0 := by
  induction chunks with
  | nil => intro acc; rfl
  | cons c r ih => intro acc; simp [chunkEvents, List.countP_cons, isASC, ih]

/-- C8 counterexample: when `MurfStreamInputWS.connect` raises, the
adapter falls back to mock audio — the concrete admitted turn emits no
`error` event at all and *does* emit `audio_streaming_complete`,
contradicting both halves of the claim. -/
theorem c8_counterexample : ¬ SpecClaimC8 := by
  intro h
  have inst := h RateLimiter.init 0 [] (str "hi") 1 [] [str "ok"] true (by decide)
  exact absurd inst.1 (by decide)

/-- C8 amended: a TTS connect failure is silently absorbed by the
mock-audio fallback — the turn emits no `error` event, emits a mock
`audio_chunk` with `final=true`, the terminating empty `final=true`
chunk, exactly one `audio_streaming_complete`, and
`llm_streaming_complete`; the session stays alive and the history is
still updated. -/
theorem c8_tts_connect_failure (rl : RateLimiter) (now : ℤ)
    (hist : List (List Nat × List Nat)) (user : List Nat) (turn : Nat)
    (mockWav : List Nat) (chunks : List (List Nat))
    (hok : (can_make_request rl now).2 = true) :
    (stream_llm_response rl now hist user turn mockWav
        (Behavior.run chunks MurfMode.mockFallback true)).events.any isErrorEv
      = false ∧
    Event.audioChunk turn mockWav true
      ∈ (stream_llm_response rl now hist user turn mockWav
          (Behavior.run chunks MurfMode.mockFallback true)).events ∧
    Event.audioChunk turn [] true
      ∈ (stream_llm_response rl now hist user turn mockWav
          (Behavior.run chunks MurfMode.mockFallback true)).events ∧
    (stream_llm_response rl now hist user turn mockWav
        (Behavior.run chunks MurfMode.mockFallback true)).events.countP isASC = 1 ∧
    (stream_llm_response rl now hist user turn mockWav
        (Behavior.run chunks MurfMode.mockFallback true)).events.any isLlmCompleteEv
      = true ∧
    (stream_llm_response rl now hist user turn mockWav
        (Behavior.run chunks MurfMode.mockFallback true)).history
      = hist ++ [(user, chunks.flatten)] := by
  refine ⟨?_, ?_, ?_, ?_, ?_, ?_⟩ <;>
    simp [stream_llm_response, hok, audioEvents, isErrorEv, isASC, isLlmCompleteEv,
      chunkEvents_isErrorEv, chunkEvents_isASC, chunkEvents_isLlmCompleteEv,
      chunkEvents_countP_isASC, List.countP_append, List.countP_cons]

/-- Witness for C8 amended on a fresh limiter and one LLM chunk. -/
theorem c8_witness :
    ((can_make_request RateLimiter.init 0).2 = true) ∧
    (stream_llm_response RateLimiter.init 0 [] (str "hi") 1 (str "w")
        (Behavior.run [str "ok"] MurfMode.mockFallback true)).events.any isErrorEv
      = false ∧
    (stream_llm_response RateLimiter.init 0 [] (str "hi") 1 (str "w")
        (Behavior.run [str "ok"] MurfMode.mockFallback true)).events.countP isASC
      = 1 := by
  have main := c8_tts_connect_failure RateLimiter.init 0 [] (str "hi") 1 (str "w")
    [str "ok"] (by decide)
  exact ⟨by decide, main.1, main.2.2.2.1⟩

/-- C10: every admitted turn consumes a rate-limit slot — after a
successful `allow()` the timestamp is appended before any work, the
first emitted event of an admitted turn is `llm_streaming_start`, and
the appended record survives whatever the behavior (start failure,
mid-stream exception, success). -/
theorem c10_slot_consumed (rl : RateLimiter) (now : ℤ)
    (hist : List (List Nat × List Nat)) (user : List Nat) (turn : Nat)
    (mockWav : List Nat) (beh : Behavior)
    (hok : (can_make_request rl now).2 = true) :
    (stream_llm_response rl now hist user turn mockWav beh).limiter
      = add_request (can_make_request rl now).1 now ∧
    (stream_llm_response rl now hist user turn mockWav beh).limiter.requests
      = (can_make_request rl now).1.requests ++ [now] ∧
    (stream_llm_response rl now hist user turn mockWav beh).events.head?
      = some (Event.llmStreamingStart turn) := by
  cases beh with
  | startFail err => refine ⟨?_, ?_, ?_⟩ <;> simp [stream_llm_response, hok, add_request]
  | run chunks mode completed =>
    refine ⟨?_, ?_, ?_⟩ <;> simp [stream_llm_response, hok, add_request]

/-- Witness for C10: a fresh limiter admits the turn; the record is
appended even though the turn then fails before streaming. -/
theorem c10_witness :
    ((can_make_request RateLimiter.init 5).2 = true) ∧
    (stream_llm_response RateLimiter.init 5 [] (str "hi") 1 []
        (Behavior.startFail (str "boom"))).limiter.requests = [(5 : ℤ)] := by
  have main := c10_slot_consumed RateLimiter.init 5 [] (str "hi") 1 []
    (Behavior.startFail (str "boom")) (by decide)
  exact ⟨by decide, by rw [main.2.1]; rfl⟩

end VoiceAgent
